import Mathlib

/-!
Shallow embedding of the `key-path` Rust crate (src/lib.rs): the `Item`
segment type, the `KeyPath` sequence type, their conversions, display
rendering, append, indexing, slicing and iteration, together with proofs
of the specified properties.
-/

namespace KeyPathSpec

/-- Embedding of `enum Item { Key(String), Index(usize) }`.  `usize` is
modelled as `Nat` (non-negative, no fixed bound is exercised by the code). -/
inductive Item where
  | Key (s : String)
  | Index (n : Nat)
deriving DecidableEq, Repr

/-- Decimal digits of a natural number, most significant first, with a fuel
bound making the recursion structural (any `fuel > n` suffices since the
argument strictly decreases); embeds the digit sequence produced by
`usize::to_string()` (Rust `Display` for unsigned integers prints plain
decimal). -/
def decDigitsAux (fuel n : Nat) : List Nat :=
  match fuel with
  | 0 => []
  | fuel + 1 => if n < 10 then [n] else decDigitsAux fuel (n / 10) ++ [n % 10]

/-- Decimal digits of a natural number, most significant first. -/
def decDigits (n : Nat) : List Nat := decDigitsAux (n + 1) n

/-- The decimal string of a natural number: the embedding of
`n.to_string()` for `usize`. -/
def natToString (n : Nat) : String :=
  String.mk ((decDigits n).map (fun d => Char.ofNat (48 + d)))

/-- Embedding of `Display for Item`: a `Key` writes its literal text,
an `Index` writes `n.to_string()`. -/
def Item.render : Item → String
  | .Key s => s
  | .Index n => natToString n

/-- Embedding of `Item::is_key`. -/
def Item.is_key : Item → Bool
  | .Key _ => true
  | .Index _ => false

/-- Embedding of `Item::is_index`. -/
def Item.is_index : Item → Bool
  | .Key _ => false
  | .Index _ => true

/-- Embedding of `Item::as_key`. -/
def Item.as_key : Item → Option String
  | .Key v => some v
  | .Index _ => none

/-- Embedding of `Item::as_index`. -/
def Item.as_index : Item → Option Nat
  | .Key _ => none
  | .Index v => some v

/-- Embedding of `impl From<usize> for Item`. -/
def itemFromUsize (n : Nat) : Item := Item.Index n

/-- Embedding of `impl From<&str> for Item` (copies the borrowed text into
an owned `Key`). -/
def itemFromStr (s : String) : Item := Item.Key s

/-- Embedding of `impl From<String> for Item`. -/
def itemFromString (s : String) : Item := Item.Key s

/-- Embedding of `impl From<&String> for Item`. -/
def itemFromStringRef (s : String) : Item := Item.Key s

/-- A value convertible to an `Item`: one constructor per `From` impl the
crate provides, tagging which concrete representation the caller supplied. -/
inductive IntoItem where
  | ofUsize (n : Nat)
  | ofStr (s : String)
  | ofString (s : String)
  | ofStringRef (s : String)
deriving DecidableEq, Repr

/-- Dispatch of `T: Into<Item>` to the matching `From` impl. -/
def IntoItem.into : IntoItem → Item
  | .ofUsize n => itemFromUsize n
  | .ofStr s => itemFromStr s
  | .ofString s => itemFromString s
  | .ofStringRef s => itemFromStringRef s

/-- Embedding of `struct KeyPath { items: Vec<Item> }`. -/
structure KeyPath where
  items : List Item
deriving DecidableEq, Repr

/-- Embedding of `KeyPath::new`. -/
def KeyPath.new (items : List Item) : KeyPath := ⟨items⟩

/-- Embedding of `KeyPath::len` (`Vec::len`). -/
def KeyPath.len (p : KeyPath) : Nat := p.items.length

/-- Embedding of `KeyPath::get` (`Vec::get`, absence as `Option`). -/
def KeyPath.get (p : KeyPath) (index : Nat) : Option Item := p.items[index]?

/-- Embedding of `KeyPath::last` (`Vec::last`, absence as `Option`). -/
def KeyPath.last (p : KeyPath) : Option Item := p.items.getLast?

/-- Embedding of `KeyPath::is_empty`. -/
def KeyPath.is_empty (p : KeyPath) : Bool := p.items.isEmpty

/-- Embedding of `Default for KeyPath` (`Self { items: vec![] }`). -/
def keyPathDefault : KeyPath := ⟨[]⟩

/-- Embedding of Rust slice `join(".")`: the separator is written between
consecutive elements only. -/
def joinDot : List String → String
  | [] => ""
  | [x] => x
  | x :: y :: xs => x ++ "." ++ joinDot (y :: xs)

/-- Embedding of `Display for KeyPath`: render every item and join with a
single dot. -/
def KeyPath.render (p : KeyPath) : String := joinDot (p.items.map Item.render)

/-- Embedding of `impl From<KeyPath> for String` (`value.to_string()`). -/
def stringFromKeyPath (p : KeyPath) : String := p.render

/-- Embedding of `impl From<&KeyPath> for String` (`value.to_string()`). -/
def stringFromKeyPathRef (p : KeyPath) : String := p.render

/-- Embedding of `Add<T> for &KeyPath`: clone the items, push the converted
segment, build a new path; the receiver is only read. -/
def KeyPath.addRef (p : KeyPath) (rhs : IntoItem) : KeyPath :=
  ⟨p.items ++ [rhs.into]⟩

/-- Embedding of `Add<T> for KeyPath`: delegates to the reference form. -/
def KeyPath.addVal (p : KeyPath) (rhs : IntoItem) : KeyPath :=
  p.addRef rhs

/-- Embedding of `Index<usize> for KeyPath` (`&self.items[index]`): Rust
slice indexing panics when out of bounds; the panic is the `Except.error`
case, which carries no `Item`. -/
def KeyPath.indexOp (p : KeyPath) (index : Nat) : Except Unit Item :=
  match p.items[index]? with
  | some it => Except.ok it
  | none => Except.error ()

/-- Embedding of `Index<Range<usize>> for KeyPath`
(`&self.items[start..stop]`): Rust range slicing panics unless
`start <= stop <= len`; on success it yields the half-open sub-sequence. -/
def KeyPath.sliceOp (p : KeyPath) (start stop : Nat) : Except Unit (List Item) :=
  if start ≤ stop ∧ stop ≤ p.items.length then
    Except.ok ((p.items.drop start).take (stop - start))
  else
    Except.error ()

/-- Embedding of `impl From<&[Item]> for KeyPath` (`items.to_vec()`). -/
def keyPathFromSlice (items : List Item) : KeyPath := ⟨items⟩

/-- Embedding of `struct KeyPathIter { key_path, index }`. -/
structure KeyPathIter where
  key_path : KeyPath
  index : Nat
deriving DecidableEq, Repr

/-- Embedding of `Iterator::next for KeyPathIter`: read `get(index)`, then
increment the cursor; returns the yielded element and the advanced iterator. -/
def KeyPathIter.next (it : KeyPathIter) : Option Item × KeyPathIter :=
  (it.key_path.get it.index, ⟨it.key_path, it.index + 1⟩)

/-- Embedding of `KeyPath::iter` / `IntoIterator for &KeyPath`: a fresh
iterator starting at index 0. -/
def KeyPath.iter (p : KeyPath) : KeyPathIter := ⟨p, 0⟩

/-- Run an iterator to a list by repeatedly calling `next`, stopping at the
first `none`; `fuel` bounds the number of calls so the recursion is total. -/
def drain (fuel : Nat) (it : KeyPathIter) : List Item :=
  match fuel with
  | 0 => []
  | fuel + 1 =>
    match it.next with
    | (none, _) => []
    | (some x, it2) => x :: drain fuel it2

/-- Embedding of the `path!` macro expansion: it pushes
`Item::from(expr)` for each listed expression in order into a fresh vector
and wraps it with `KeyPath::new`; the heterogeneous expression list is
modelled as a list of `IntoItem` tags. -/
def pathLit (vs : List IntoItem) : KeyPath := KeyPath.new (vs.map IntoItem.into)

/-- Decimal value of a digit list, most significant first (used to state
that `decDigits` really is the base-10 representation). -/
def decValue (ds : List Nat) : Nat := ds.foldl (fun a d => a * 10 + d) 0

/-! ### Helper lemmas about decimal rendering -/

theorem decDigitsAux_ne_nil : ∀ (fuel n : Nat), n < fuel → decDigitsAux fuel n ≠ [] := by
  intro fuel
  cases fuel with
  | zero => intro n h; omega
  | succ fuel =>
    intro n h
    show (if n < 10 then [n] else decDigitsAux fuel (n / 10) ++ [n % 10]) ≠ []
    split
    · simp
    · simp

theorem decDigitsAux_mem_lt : ∀ (fuel n : Nat), ∀ d ∈ decDigitsAux fuel n, d < 10 := by
  intro fuel
  induction fuel with
  | zero => intro n d hd; simp [decDigitsAux] at hd
  | succ fuel ih =>
    intro n d hd
    simp only [decDigitsAux] at hd
    split at hd
    · next h => simp only [List.mem_singleton] at hd; omega
    · next h =>
      simp only [List.mem_append, List.mem_singleton] at hd
      rcases hd with hd | hd
      · exact ih (n / 10) d hd
      · subst hd; omega

theorem decDigitsAux_head : ∀ (fuel n : Nat), n ≠ 0 → n < fuel →
    ∃ d, (decDigitsAux fuel n).head? = some d ∧ d ≠ 0 ∧ d < 10 := by
  intro fuel
  induction fuel with
  | zero => intro n hn h; omega
  | succ fuel ih =>
    intro n hn h
    simp only [decDigitsAux]
    split
    · next h10 => exact ⟨n, rfl, hn, h10⟩
    · next h10 =>
      obtain ⟨d, hd, hd0, hdlt⟩ := ih (n / 10) (by omega) (by omega)
      obtain ⟨a, as, ha⟩ :=
        List.exists_cons_of_ne_nil (decDigitsAux_ne_nil fuel (n / 10) (by omega))
      rw [ha] at hd
      simp only [List.head?_cons, Option.some.injEq] at hd
      refine ⟨d, ?_, hd0, hdlt⟩
      rw [ha, List.cons_append, List.head?_cons, hd]

theorem decValue_append (ds : List Nat) (d : Nat) :
    decValue (ds ++ [d]) = decValue ds * 10 + d := by
  simp [decValue, List.foldl_append]

theorem decDigitsAux_value : ∀ (fuel n : Nat), n < fuel →
    decValue (decDigitsAux fuel n) = n := by
  intro fuel
  induction fuel with
  | zero => intro n h; omega
  | succ fuel ih =>
    intro n h
    simp only [decDigitsAux]
    split
    · next h10 => simp [decValue]
    · next h10 =>
      rw [decValue_append, ih (n / 10) (by omega)]
      omega

theorem decDigits_ne_nil (n : Nat) : decDigits n ≠ [] :=
  decDigitsAux_ne_nil (n + 1) n (by omega)

theorem decDigits_mem_lt (n : Nat) : ∀ d ∈ decDigits n, d < 10 :=
  decDigitsAux_mem_lt (n + 1) n

theorem decDigits_head (n : Nat) :
    n ≠ 0 → ∃ d, (decDigits n).head? = some d ∧ d ≠ 0 ∧ d < 10 :=
  fun hn => decDigitsAux_head (n + 1) n hn (by omega)

theorem decValue_decDigits (n : Nat) : decValue (decDigits n) = n :=
  decDigitsAux_value (n + 1) n (by omega)

theorem natToString_chars (n : Nat) :
    ∀ c ∈ (natToString n).data, '0' ≤ c ∧ c ≤ '9' := by
  intro c hc
  simp only [natToString, List.mem_map] at hc
  obtain ⟨d, hd, rfl⟩ := hc
  have hlt : d < 10 := decDigits_mem_lt n d hd
  have key : ∀ d, d < 10 → '0' ≤ Char.ofNat (48 + d)
      ∧ Char.ofNat (48 + d) ≤ '9' := by decide
  exact key d hlt

theorem natToString_head (n : Nat) (hn : n ≠ 0) :
    ∃ c, (natToString n).data.head? = some c ∧ c ≠ '0' := by
  obtain ⟨d, hd, hd0, hdlt⟩ := decDigits_head n hn
  refine ⟨Char.ofNat (48 + d), ?_, ?_⟩
  · simp [natToString, List.head?_map, hd]
  · have key : ∀ d, d < 10 → d ≠ 0 → Char.ofNat (48 + d) ≠ '0' := by decide
    exact key d hdlt hd0

/-! ### Helper lemmas about iteration -/

theorem drain_eq (fuel : Nat) :
    ∀ (p : KeyPath) (idx : Nat),
      drain fuel ⟨p, idx⟩ = (p.items.drop idx).take fuel := by
  induction fuel with
  | zero => intro p idx; simp [drain]
  | succ fuel ih =>
    intro p idx
    show (match (KeyPathIter.next ⟨p, idx⟩) with
      | (none, _) => []
      | (some x, it2) => x :: drain fuel it2) = _
    simp only [KeyPathIter.next, KeyPath.get]
    cases h : p.items[idx]? with
    | none =>
      have hlen : p.items.length ≤ idx := by
        by_contra hc
        rw [List.getElem?_eq_getElem (by omega)] at h
        exact Option.noConfusion h
      rw [List.drop_eq_nil_of_le hlen]
      rfl
    | some x =>
      have hlt : idx < p.items.length := by
        by_contra hc
        rw [List.getElem?_eq_none (by omega)] at h
        exact Option.noConfusion h
      rw [List.drop_eq_getElem_cons hlt, List.take_succ_cons]
      show x :: drain fuel ⟨p, idx + 1⟩ = _
      rw [ih p (idx + 1)]
      have hx : p.items[idx] = x := by
        rw [List.getElem?_eq_getElem hlt] at h
        exact Option.some.inj h
      rw [hx]

/-! ### Helper lemmas about indexing and slicing -/

theorem indexOp_ok (p : KeyPath) (i : Nat) (h : i < p.items.length) :
    p.indexOp i = Except.ok (p.items.get ⟨i, h⟩) := by
  unfold KeyPath.indexOp
  rw [List.getElem?_eq_getElem h]
  simp [List.get_eq_getElem]

theorem indexOp_err (p : KeyPath) (i : Nat) (h : p.items.length ≤ i) :
    p.indexOp i = Except.error () := by
  unfold KeyPath.indexOp
  rw [List.getElem?_eq_none h]

theorem sliceOp_ok (p : KeyPath) (start stop : Nat)
    (h1 : start ≤ stop) (h2 : stop ≤ p.items.length) :
    p.sliceOp start stop = Except.ok ((p.items.drop start).take (stop - start)) := by
  unfold KeyPath.sliceOp
  rw [if_pos ⟨h1, h2⟩]

theorem sliceOp_err (p : KeyPath) (start stop : Nat)
    (h : ¬ (start ≤ stop ∧ stop ≤ p.items.length)) :
    p.sliceOp start stop = Except.error () := by
  unfold KeyPath.sliceOp
  rw [if_neg h]

/-! ### Claim theorems -/

/-- C1: for every path `p` and convertible value `v`, `p + v` (reference
receiver) has length `p.len + 1`, its segment at position `p.len` is
`Item::from(v)`, its first `p.len` segments are those of `p` in order, and
the value-receiver form returns the same path; the receiver is a read-only
input of the pure embedding, so `p` itself is unchanged. -/
theorem keyPath_add_spec (p : KeyPath) (v : IntoItem) :
    (p.addRef v).len = p.len + 1
    ∧ (p.addRef v).get p.len = some v.into
    ∧ (∀ i, i < p.len → (p.addRef v).get i = p.get i)
    ∧ p.addVal v = p.addRef v := by
  refine ⟨by simp [KeyPath.addRef, KeyPath.len], ?_, ?_, rfl⟩
  · show (p.items ++ [v.into])[p.items.length]? = some v.into
    exact List.getElem?_concat_length p.items v.into
  · intro i hi
    show (p.items ++ [v.into])[i]? = p.items[i]?
    exact List.getElem?_append_left hi

/-- Witness for C1 at a concrete path and value. -/
theorem keyPath_add_spec_witness :
    ((KeyPath.mk [Item.Key "a"]).addRef (IntoItem.ofUsize 5)).get 0
      = (KeyPath.mk [Item.Key "a"]).get 0 :=
  (keyPath_add_spec (KeyPath.mk [Item.Key "a"]) (IntoItem.ofUsize 5)).2.2.1 0 (by decide)

/-- C4: `get`, `last`, `as_key` and `as_index` are total functions signalling
absence with `Option`: `get i` is the segment at `i` exactly when `i < len`
and `none` otherwise; `last` is the final segment of a non-empty path and
`none` on the empty path; `as_key` projects exactly the `Key` variant and
`as_index` exactly the `Index` variant. -/
theorem accessors_spec (p : KeyPath) (i : Nat) (s : String) (n : Nat) :
    (∀ h : i < p.len, p.get i = some (p.items.get ⟨i, h⟩))
    ∧ (p.len ≤ i → p.get i = none)
    ∧ (∀ h : p.items ≠ [], p.last = some (p.items.getLast h))
    ∧ (p.items = [] → p.last = none)
    ∧ (Item.Key s).as_key = some s
    ∧ (Item.Key s).as_index = none
    ∧ (Item.Index n).as_index = some n
    ∧ (Item.Index n).as_key = none := by
  refine ⟨?_, ?_, ?_, ?_, rfl, rfl, rfl, rfl⟩
  · intro h
    show p.items[i]? = _
    rw [List.getElem?_eq_getElem h]
    simp [List.get_eq_getElem]
  · intro h
    exact List.getElem?_eq_none h
  · intro h
    exact List.getLast?_eq_getLast p.items h
  · intro h
    show p.items.getLast? = none
    rw [h]
    rfl

/-- Witness for C4 at a concrete path. -/
theorem accessors_spec_witness :
    (KeyPath.mk [Item.Key "a", Item.Index 2]).get 1
        = some ((KeyPath.mk [Item.Key "a", Item.Index 2]).items.get ⟨1, by decide⟩)
    ∧ (KeyPath.mk [Item.Key "a", Item.Index 2]).last
        = some ((KeyPath.mk [Item.Key "a", Item.Index 2]).items.getLast (by decide)) := by
  have h := accessors_spec (KeyPath.mk [Item.Key "a", Item.Index 2]) 1 "a" 2
  exact ⟨h.1 (by decide), h.2.2.1 (by decide)⟩

/-- C5: the `path!` literal builder produces one converted segment per listed
expression, in listed order: the empty list gives the default (empty) path,
the length equals the number of listed expressions, position `i` holds the
conversion of the `i`-th expression, and a mixed owned-string/integer list
equals the explicitly built path. -/
theorem path_literal_spec (vs : List IntoItem) (i : Nat) :
    pathLit [] = keyPathDefault
    ∧ (pathLit vs).len = vs.length
    ∧ (∀ h : i < vs.length, (pathLit vs).get i = some (vs.get ⟨i, h⟩).into)
    ∧ pathLit [IntoItem.ofString "where", IntoItem.ofUsize 5]
        = KeyPath.new [Item.Key "where", Item.Index 5] := by
  refine ⟨rfl, by simp [pathLit, KeyPath.new, KeyPath.len], ?_, rfl⟩
  intro h
  show (vs.map IntoItem.into)[i]? = _
  rw [List.getElem?_map, List.getElem?_eq_getElem h]
  simp [List.get_eq_getElem]

/-- Witness for C5 at a concrete expression list. -/
theorem path_literal_spec_witness :
    (pathLit [IntoItem.ofStr "a", IntoItem.ofUsize 7]).get 1
      = some ((([IntoItem.ofStr "a", IntoItem.ofUsize 7] :
          List IntoItem).get ⟨1, by decide⟩).into) :=
  (path_literal_spec [IntoItem.ofStr "a", IntoItem.ofUsize 7] 1).2.2.1 (by decide)

/-- C6: path equality is order-sensitive element-wise sequence equality
(`p = q` iff equal lengths and equal segments at every position), segment
equality is same-variant-same-value, a `Key` never equals an `Index`, and a
reordered path is not equal to the original. -/
theorem keyPath_eq_spec (p q : KeyPath) (s t : String) (n m : Nat) :
    (p = q ↔ p.len = q.len ∧ ∀ i, i < p.len → p.get i = q.get i)
    ∧ (Item.Key s = Item.Key t ↔ s = t)
    ∧ (Item.Index n = Item.Index m ↔ n = m)
    ∧ Item.Key s ≠ Item.Index n
    ∧ KeyPath.mk [Item.Key "a", Item.Key "b"]
        ≠ KeyPath.mk [Item.Key "b", Item.Key "a"] := by
  refine ⟨?_, by simp, by simp, by simp, by decide⟩
  constructor
  · rintro rfl
    exact ⟨rfl, fun i _ => rfl⟩
  · rintro ⟨hlen, hget⟩
    cases p with
    | mk ps =>
      cases q with
      | mk qs =>
        simp only [KeyPath.len] at hlen
        congr 1
        apply List.ext_getElem?
        intro i
        by_cases hi : i < ps.length
        · exact hget i hi
        · rw [List.getElem?_eq_none (by omega), List.getElem?_eq_none (by omega)]

/-- Witness for C6: the characterization applied at a concrete pair of equal
paths, discharging the element-wise hypothesis. -/
theorem keyPath_eq_spec_witness :
    KeyPath.mk [Item.Key "a"] = KeyPath.mk [Item.Key "a"] := by
  have h := keyPath_eq_spec (KeyPath.mk [Item.Key "a"])
    (KeyPath.mk [Item.Key "a"]) "a" "a" 0 0
  exact h.1.mpr ⟨rfl, fun i _ => rfl⟩

/-- C7: constructing a path from a segment sequence preserves it exactly
(same length, same segment at every valid position, via the panicking index
operator), and the default path is empty with length 0 and renders as "". -/
theorem keyPath_from_slice_spec (S : List Item) (i : Nat) :
    (keyPathFromSlice S).len = S.length
    ∧ (∀ h : i < S.length, (keyPathFromSlice S).indexOp i = Except.ok (S.get ⟨i, h⟩))
    ∧ keyPathDefault.is_empty = true
    ∧ keyPathDefault.len = 0
    ∧ keyPathDefault.render = "" := by
  refine ⟨rfl, ?_, rfl, rfl, rfl⟩
  intro h
  exact indexOp_ok (keyPathFromSlice S) i h

/-- Witness for C7 at a concrete segment sequence. -/
theorem keyPath_from_slice_spec_witness :
    (keyPathFromSlice [Item.Index 4, Item.Key "b"]).indexOp 0
      = Except.ok (([Item.Index 4, Item.Key "b"] : List Item).get ⟨0, by decide⟩) :=
  (keyPath_from_slice_spec [Item.Index 4, Item.Key "b"] 0).2.1 (by decide)

/-- C9: converting a path into a `String`, from the owned path or from a
reference, is exactly the display rendering (both `From` impls call
`to_string`). -/
theorem string_from_keyPath_spec (p : KeyPath) :
    stringFromKeyPath p = p.render ∧ stringFromKeyPathRef p = p.render :=
  ⟨rfl, rfl⟩

/-- Witness for C9 at a concrete path. -/
theorem string_from_keyPath_spec_witness :
    stringFromKeyPath (KeyPath.mk [Item.Key "a", Item.Index 2])
      = (KeyPath.mk [Item.Key "a", Item.Index 2]).render :=
  (string_from_keyPath_spec (KeyPath.mk [Item.Key "a", Item.Index 2])).1

/-- C2: the display rendering joins the segments' rendered texts with a
single dot between consecutive segments and no leading or trailing separator
(empty path gives "", a singleton gives just the segment, a longer path
prepends the head plus one dot); a `Key` renders as its literal text; an
`Index` renders as the decimal string of its integer (`decDigits` is the
base-10 representation), using only digit characters (hence no sign) and
with no leading zero for a non-zero value. -/
theorem keyPath_display_spec (x : Item) (xs : List Item) (s : String) (n : Nat) :
    KeyPath.render ⟨[]⟩ = ""
    ∧ KeyPath.render ⟨[x]⟩ = x.render
    ∧ (xs ≠ [] → KeyPath.render ⟨x :: xs⟩ = x.render ++ "." ++ KeyPath.render ⟨xs⟩)
    ∧ (Item.Key s).render = s
    ∧ (Item.Index n).render = natToString n
    ∧ decValue (decDigits n) = n
    ∧ (∀ c ∈ (natToString n).data, '0' ≤ c ∧ c ≤ '9')
    ∧ (n ≠ 0 → ∃ c, (natToString n).data.head? = some c ∧ c ≠ '0') := by
  refine ⟨rfl, rfl, ?_, rfl, rfl, decValue_decDigits n,
    natToString_chars n, natToString_head n⟩
  intro hxs
  cases xs with
  | nil => exact absurd rfl hxs
  | cons y ys => rfl

/-- Witness for C2 at a concrete path and number. -/
theorem keyPath_display_spec_witness :
    KeyPath.render ⟨[Item.Key "a", Item.Index 10]⟩
      = (Item.Key "a").render ++ "." ++ KeyPath.render ⟨[Item.Index 10]⟩
    ∧ ∃ c, (natToString 10).data.head? = some c ∧ c ≠ '0' := by
  have h := keyPath_display_spec (Item.Key "a") [Item.Index 10] "x" 10
  exact ⟨h.2.2.1 (by decide), h.2.2.2.2.2.2.2 (by decide)⟩

/-- C3: the single-position index operator succeeds exactly when
`i < p.len` (agreeing with `get` there) and otherwise fails with the
panic-class error, which carries no segment; the half-open range slice
operator succeeds exactly when `start ≤ stop ≤ p.len`, yielding the
contiguous sub-sequence of length `stop - start` whose `j`-th element is the
segment at position `start + j`, and otherwise fails with the panic-class
error. -/
theorem keyPath_index_slice_spec (p : KeyPath) (i start stop : Nat) :
    ((p.indexOp i).isOk = true ↔ i < p.len)
    ∧ (p.indexOp i = Except.error () ↔ p.len ≤ i)
    ∧ (∀ h : i < p.len, p.indexOp i = Except.ok (p.items.get ⟨i, h⟩)
        ∧ p.get i = some (p.items.get ⟨i, h⟩))
    ∧ ((p.sliceOp start stop).isOk = true ↔ start ≤ stop ∧ stop ≤ p.len)
    ∧ (start ≤ stop → stop ≤ p.len →
        ∃ l, p.sliceOp start stop = Except.ok l ∧ l.length = stop - start
          ∧ ∀ j, j < stop - start → l[j]? = p.items[start + j]?)
    ∧ (¬ (start ≤ stop ∧ stop ≤ p.len) → p.sliceOp start stop = Except.error ()) := by
  have hlen : p.len = p.items.length := rfl
  refine ⟨?_, ?_, ?_, ?_, ?_, sliceOp_err p start stop⟩
  · by_cases hi : i < p.items.length
    · rw [indexOp_ok p i hi]
      simp [Except.isOk, Except.toBool, hi]
      exact hi
    · rw [indexOp_err p i (by omega)]
      simp [Except.isOk, Except.toBool]
      omega
  · by_cases hi : i < p.items.length
    · rw [indexOp_ok p i hi]
      simp [KeyPath.len]
      omega
    · rw [indexOp_err p i (by omega)]
      simp [KeyPath.len]
      omega
  · intro h
    refine ⟨indexOp_ok p i h, ?_⟩
    show p.items[i]? = _
    rw [List.getElem?_eq_getElem h]
    simp [List.get_eq_getElem]
  · by_cases hr : start ≤ stop ∧ stop ≤ p.items.length
    · rw [sliceOp_ok p start stop hr.1 hr.2]
      simpa [Except.isOk, Except.toBool] using hr
    · rw [sliceOp_err p start stop hr]
      simpa [Except.isOk, Except.toBool] using hr
  · intro h1 h2
    refine ⟨(p.items.drop start).take (stop - start), sliceOp_ok p start stop h1 h2, ?_, ?_⟩
    · simp [List.length_take, List.length_drop]
      omega
    · intro j hj
      rw [List.getElem?_take, if_pos hj, List.getElem?_drop]

/-- Witness for C3 at a concrete path, position and range. -/
theorem keyPath_index_slice_spec_witness :
    ((KeyPath.mk [Item.Key "a", Item.Index 2]).indexOp 1
      = Except.ok ((KeyPath.mk [Item.Key "a", Item.Index 2]).items.get ⟨1, by decide⟩))
    ∧ ∃ l, (KeyPath.mk [Item.Key "a", Item.Index 2]).sliceOp 0 1 = Except.ok l
        ∧ l.length = 1 - 0
        ∧ ∀ j, j < 1 - 0 →
            l[j]? = (KeyPath.mk [Item.Key "a", Item.Index 2]).items[0 + j]? := by
  have h := keyPath_index_slice_spec (KeyPath.mk [Item.Key "a", Item.Index 2]) 1 0 1
  exact ⟨(h.2.2.1 (by decide)).1, h.2.2.2.2.1 (by decide) (by decide)⟩

/-- C8: iterating a path from a fresh iterator yields exactly its segments,
in stored order (so exactly `p.len` items), and `next` does not change the
iterated path, only advancing the cursor while returning `get` at the old
cursor; the embedding is pure, so any two iterations from `p.iter` yield
this same sequence. -/
theorem keyPath_iter_spec (p : KeyPath) (it : KeyPathIter) :
    drain p.len p.iter = p.items
    ∧ (drain p.len p.iter).length = p.len
    ∧ it.next.2.key_path = it.key_path
    ∧ it.next.2.index = it.index + 1
    ∧ it.next.1 = it.key_path.get it.index := by
  have hd : drain p.len p.iter = p.items := by
    show drain p.len ⟨p, 0⟩ = p.items
    rw [drain_eq p.len p 0]
    simp [KeyPath.len]
  exact ⟨hd, by rw [hd]; rfl, rfl, rfl, rfl⟩

/-- Witness for C8 at a concrete path and iterator. -/
theorem keyPath_iter_spec_witness :
    drain (KeyPath.mk [Item.Key "a", Item.Index 2]).len
        (KeyPath.mk [Item.Key "a", Item.Index 2]).iter
      = [Item.Key "a", Item.Index 2] :=
  (keyPath_iter_spec (KeyPath.mk [Item.Key "a", Item.Index 2]) ⟨KeyPath.mk [], 0⟩).1

/-- C10: converting the empty string yields `Key ""` without validation; it
is distinct from every `Index`, counts toward the length when appended, and
renders as the empty string, so a path holding it renders with consecutive
or dangling dots — two distinct paths can share one rendering, making the
dotted form ambiguous. -/
theorem empty_key_spec (p : KeyPath) (n : Nat) :
    itemFromStr "" = Item.Key ""
    ∧ Item.Key "" ≠ Item.Index n
    ∧ (p.addRef (IntoItem.ofStr "")).len = p.len + 1
    ∧ (p.addRef (IntoItem.ofStr "")).get p.len = some (Item.Key "")
    ∧ (Item.Key "").render = ""
    ∧ KeyPath.render ⟨[Item.Key "a", Item.Key "", Item.Key "b"]⟩ = "a..b"
    ∧ KeyPath.render ⟨[Item.Key "a", Item.Key ""]⟩ = "a."
    ∧ KeyPath.render ⟨[Item.Key "a", Item.Key ""]⟩ = KeyPath.render ⟨[Item.Key "a."]⟩
    ∧ KeyPath.mk [Item.Key "a", Item.Key ""] ≠ KeyPath.mk [Item.Key "a."] := by
  refine ⟨rfl, by simp, ?_, ?_, rfl, by decide, by decide, by decide, by decide⟩
  · simp [KeyPath.addRef, KeyPath.len]
  · show (p.items ++ [Item.Key ""])[p.items.length]? = some (Item.Key "")
    exact List.getElem?_concat_length p.items (Item.Key "")

/-- Witness for C10 at a concrete path and index value. -/
theorem empty_key_spec_witness :
    Item.Key "" ≠ Item.Index 0
    ∧ ((KeyPath.mk []).addRef (IntoItem.ofStr "")).len = (KeyPath.mk []).len + 1 := by
  have h := empty_key_spec (KeyPath.mk []) 0
  exact ⟨h.2.1, h.2.2.1⟩

end KeyPathSpec
